import Mathlib

/-
  Verification development for the DGIT commit/storage/restore pipeline.

  The Go sources are shallowly embedded: file contents and relative paths are
  byte lists (`List Nat`), filesystem artifact paths are `String`s relative to
  the repository's `.dgit/` directory, sizes are `Nat`, and compression ratios
  are exact rationals.  I/O effects are made explicit: a staged file carries a
  `readable` flag (whether `os.Open`/`io.ReadAll` succeeds), and the size of an
  LZ4-compressed artifact (the output of the external LZ4 library) is passed as
  an explicit parameter.  The LZ4 frame itself is transparent
  (compress/decompress round-trips, a property of the external library), so the
  container codec is modelled on the uncompressed byte stream that flows
  through the frame, exactly as `compressWithLZ4` writes it and
  `extractFilesFromStream` parses it.
-/

namespace DGit

deriving instance DecidableEq for Except

/-- Byte list of an ASCII string literal (UTF-8 agrees with code points here). -/
def strBytes (s : String) : List Nat :=
  s.toList.map Char.toNat

/-- Fuel-driven renderer for `fmt.Sprintf("%d", n)`: most significant digit
first, no leading zeros.  Fuel `n` always suffices since the argument is
divided by ten on each step. -/
def natDecimalAux : Nat → Nat → List Nat
  | 0, n => [48 + n % 10]
  | f + 1, n => if n < 10 then [48 + n] else natDecimalAux f (n / 10) ++ [48 + n % 10]

/-- Decimal ASCII rendering of `n`, as Go's `fmt.Sprintf("%d", n)` emits it. -/
def natDecimal (n : Nat) : List Nat :=
  natDecimalAux n n

/-- Loop of `RestoreManager.parseInt64`: accumulate decimal digits, return 0 as
soon as a non-digit byte is seen (mirroring the Go `return 0`). -/
def parseIntGo (acc : Nat) : List Nat → Nat
  | [] => acc
  | b :: rest => if 48 ≤ b ∧ b ≤ 57 then parseIntGo (acc * 10 + (b - 48)) rest else 0

/-- `RestoreManager.parseInt64` from `internal/restore/restore.go` (values are
non-negative because only digit bytes are accepted). -/
def parseInt64M (s : List Nat) : Nat :=
  parseIntGo 0 s

/-- A staged file as the commit pipeline sees it (`staging.StagedFile`):
`path` is the repository-relative path (`file.Path`, a byte string), `size` is
the stat size recorded at staging time (`file.Size`), `content` is what
`io.ReadAll` returns for `file.AbsolutePath`, and `readable` tells whether
`os.Open`/`io.ReadAll` succeed during encoding. -/
structure StagedFile where
  path : List Nat
  size : Nat
  content : List Nat
  readable : Bool
deriving Repr, DecidableEq

/-- `SmallFileThreshold = 50 * 1024 * 1024` from the commit package constants. -/
def smallFileThreshold : Nat := 50 * 1024 * 1024

/-- `LargeFileSize = 500 * 1024 * 1024` from the staging package constants. -/
def largeFileSize : Nat := 500 * 1024 * 1024

/-- `HashSampleSize = 64 * 1024` from the staging package constants. -/
def hashSampleSize : Nat := 64 * 1024

/-- ASCII lowercasing of one byte, the fragment of Go's `strings.ToLower` that
is exercised by extension comparisons (extensions are ASCII). -/
def toLowerByte (b : Nat) : Nat :=
  if 65 ≤ b ∧ b ≤ 90 then b + 32 else b

/-- ASCII lowercasing of a byte string. -/
def toLowerBytes (s : List Nat) : List Nat :=
  s.map toLowerByte

/-- Scan of `filepath.Ext`: walk the path backwards; a `/` (byte 47) stops the
scan with no extension, a `.` (byte 46) yields the suffix from that dot on.
`rev` is the still-unscanned part reversed, `acc` the bytes already passed. -/
def filepathExtAux : List Nat → List Nat → List Nat
  | [], _ => []
  | b :: rest, acc =>
    if b = 47 then [] else if b = 46 then 46 :: acc else filepathExtAux rest (b :: acc)

/-- Go's `filepath.Ext`: the suffix beginning at the final dot in the final
path element, empty when there is none. -/
def filepathExt (p : List Nat) : List Nat :=
  filepathExtAux p.reverse []

/-- Whether `strings.ToLower(filepath.Ext(path))` is `".psd"`, as tested by
`shouldUseLZ4`, `selectDeltaAlgorithm` and `createPSDSmartDelta`. -/
def isPSDPath (p : List Nat) : Bool :=
  toLowerBytes (filepathExt p) = strBytes ".psd"

/-- Whether the lowercased extension is one of the design extensions `.psd`,
`.ai`, `.sketch` tested by `shouldUseLZ4`. -/
def isDesignExtPath (p : List Nat) : Bool :=
  toLowerBytes (filepathExt p) = strBytes ".psd" ∨
    toLowerBytes (filepathExt p) = strBytes ".ai" ∨
      toLowerBytes (filepathExt p) = strBytes ".sketch"

/-- The per-file loop of `CommitManager.shouldUseLZ4`: the first file that is
larger than `SmallFileThreshold` or carries a design extension answers `false`. -/
def shouldUseLZ4Loop : List StagedFile → Bool
  | [] => true
  | f :: rest =>
    if smallFileThreshold < f.size then false
    else if isDesignExtPath f.path then false
    else shouldUseLZ4Loop rest

/-- `CommitManager.shouldUseLZ4` (commit package): version 1 always takes LZ4;
otherwise LZ4 is taken exactly when no staged file is large or a design file. -/
def shouldUseLZ4 (files : List StagedFile) (version : Nat) : Bool :=
  if version = 1 then true else shouldUseLZ4Loop files

/-- `CommitManager.selectDeltaAlgorithm`: the first `.psd` file selects
`psd_smart`, otherwise `bsdiff`. -/
def selectDeltaAlgorithm : List StagedFile → String
  | [] => "bsdiff"
  | f :: rest => if isPSDPath f.path then "psd_smart" else selectDeltaAlgorithm rest

/-- Loop of `CommitManager.getDeltaChainLength`: count versions from `ver`
down to 1, stopping at the first `objects/v<N>.zip` snapshot; `zips` tells
which versions have such a legacy ZIP. -/
def getDeltaChainLengthM (zips : Nat → Bool) : Nat → Nat
  | 0 => 0
  | v + 1 => if zips (v + 1) then 0 else getDeltaChainLengthM zips v + 1

/-- `CommitManager.shouldCreateNewSnapshot`: force a fresh snapshot once the
chain length for `ver` has reached `MaxDeltaChainLength`. -/
def shouldCreateNewSnapshotM (zips : Nat → Bool) (ver maxChain : Nat) : Bool :=
  maxChain ≤ getDeltaChainLengthM zips ver

/-- `CompressionResult` from the commit package (timestamps and telemetry
fields that no claim touches are omitted; the ratio is the exact rational
`compressed / original` the float computes). -/
structure CompressionResult where
  strategy : String
  outputFile : String
  originalSize : Nat
  compressedSize : Nat
  compressionRatio : ℚ
  baseVersion : Nat
  cacheLevel : String
deriving Repr, DecidableEq

/-- The record `compressWithLZ4` emits for one staged file: the structured
header `FILE:<path>:<size>\n` followed by the file bytes.  `FILE:` is bytes
70, 73, 76, 69, 58; the separator is `:` (58); the terminator is LF (10). -/
def fileRecord (path content : List Nat) : List Nat :=
  strBytes "FILE:" ++ path ++ [58] ++ natDecimal content.length ++ [10] ++ content

/-- The byte stream `compressWithLZ4` pushes through the LZ4 frame writer:
one record per staged file, in staging order; a file whose open or read fails
is skipped with only a warning. -/
def lz4ContainerBytes : List StagedFile → List Nat
  | [] => []
  | f :: rest =>
    (if f.readable then fileRecord f.path f.content else []) ++ lz4ContainerBytes rest

/-- The `originalSize` accumulated by `compressWithLZ4`: the byte counts of
the files actually read (unreadable files contribute nothing). -/
def lz4OriginalSize : List StagedFile → Nat
  | [] => 0
  | f :: rest => (if f.readable then f.content.length else 0) + lz4OriginalSize rest

/-- `CommitManager.compressWithLZ4`, validation part.  `compressedSize` is the
stat size of the written LZ4 artifact (output of the external compressor).
The first component is the returned result or error, the second records
whether the artifact file survives (`os.Remove` runs on every error path). -/
def compressWithLZ4Run (files : List StagedFile) (version compressedSize : Nat) :
    Except String CompressionResult × Bool :=
  let originalSize := lz4OriginalSize files
  if originalSize = 0 then (.error "no data to compress", false)
  else if (12 : ℚ) / 10 < (compressedSize : ℚ) / (originalSize : ℚ) then
    (.error "compression failed: file became larger", false)
  else if compressedSize = 0 then (.error "compression failed: output file is empty", false)
  else
    (.ok { strategy := "lz4"
           outputFile := "v" ++ toString version ++ ".lz4"
           originalSize := originalSize
           compressedSize := compressedSize
           compressionRatio := (compressedSize : ℚ) / (originalSize : ℚ)
           baseVersion := 0
           cacheLevel := "versions" }, true)

/-- The result-or-error component of `compressWithLZ4`. -/
def compressWithLZ4M (files : List StagedFile) (version compressedSize : Nat) :
    Except String CompressionResult :=
  (compressWithLZ4Run files version compressedSize).1

/-- Path (relative to `.dgit/`) where `createPSDSmartDelta` writes its
artifact: `filepath.Join(cm.CacheDir, "v<V>_from_v<B>.psd_smart")`. -/
def psdSmartDeltaPath (version baseVersion : Nat) : String :=
  "cache/v" ++ toString version ++ "_from_v" ++ toString baseVersion ++ ".psd_smart"

/-- Path (relative to `.dgit/`) where `createBsdiffDelta` writes its artifact:
`filepath.Join(cm.CacheDir, "v<V>_from_v<B>.bsdiff")`. -/
def bsdiffDeltaPath (version baseVersion : Nat) : String :=
  "cache/v" ++ toString version ++ "_from_v" ++ toString baseVersion ++ ".bsdiff"

/-- `CommitManager.createSnapshot`.  `prevChainLen` is
`getDeltaChainLength(prevVersion)`, `deltaAttempt` the outcome of
`createDelta` (a parameter because delta encoding involves the external
bsdiff/LZ4 libraries).  The first component is the chosen compression result;
the second lists the paths `os.Remove` is called on when a delta is deemed
inefficient — the code removes `filepath.Join(cm.DeltaDir, OutputFile)`,
i.e. under `objects/deltas/`, not under `cache/` where the delta was written. -/
def createSnapshotM (files : List StagedFile) (version prevVersion : Nat)
    (prevChainLen maxChain : Nat) (deltaAttempt : Except String CompressionResult)
    (compressedSize : Nat) : Except String CompressionResult × List String :=
  if shouldUseLZ4 files version then (compressWithLZ4M files version compressedSize, [])
  else if 1 < version ∧ ¬ maxChain ≤ prevChainLen then
    match deltaAttempt with
    | .ok d =>
      if d.compressionRatio ≤ 7 / 10 then (.ok d, [])
      else (compressWithLZ4M files version compressedSize, ["objects/deltas/" ++ d.outputFile])
    | .error _ => (compressWithLZ4M files version compressedSize, [])
  else (compressWithLZ4M files version compressedSize, [])

/-- The strategy `createSnapshot` attempts first, before any delta-outcome
fallback: LZ4 when `shouldUseLZ4` says so or when the chain-length check on
the previous version forces a fresh snapshot, otherwise the `createDelta`
algorithm chosen by `selectDeltaAlgorithm`. -/
def attemptedStrategy (files : List StagedFile) (version prevChainLen maxChain : Nat) : String :=
  if shouldUseLZ4 files version then "lz4"
  else if 1 < version ∧ ¬ maxChain ≤ prevChainLen then selectDeltaAlgorithm files
  else "lz4"

/-- The commit record fields that the claims touch (`Commit` in the commit
package): `files_count` is the number of staged files, `metadataKeys` the
relative paths keyed in the per-file metadata map. -/
structure CommitM where
  filesCount : Nat
  version : Nat
  metadataKeys : List (List Nat)
  compressionInfo : CompressionResult
deriving Repr, DecidableEq

/-- `CommitManager.CreateCommit`: reject an empty staged set, compute the new
version, build the snapshot, and record `FilesCount = len(stagedFiles)` and a
metadata entry per staged file.  Hash, author, HEAD update and timestamps are
orthogonal to every claim and omitted. -/
def CreateCommitM (stagedFiles : List StagedFile) (currentVersion : Nat)
    (prevChainLen maxChain : Nat) (deltaAttempt : Except String CompressionResult)
    (compressedSize : Nat) : Except String CommitM :=
  if stagedFiles.isEmpty then .error "no files staged for commit"
  else
    match (createSnapshotM stagedFiles (currentVersion + 1) currentVersion
        prevChainLen maxChain deltaAttempt compressedSize).1 with
    | .error e => .error ("snapshot creation failed: " ++ e)
    | .ok res =>
      .ok { filesCount := stagedFiles.length
            version := currentVersion + 1
            metadataKeys := stagedFiles.map (·.path)
            compressionInfo := res }

/-- `strings.Index(s, "\n")` specialised to one byte: the index of the first
occurrence of `t`, `none` when absent (Go returns −1). -/
def idxOfByte (t : Nat) : List Nat → Option Nat
  | [] => none
  | b :: rest => if b = t then some 0 else (idxOfByte t rest).map (· + 1)

/-- `strings.Split(s, sep)` for a one-byte separator: the separated fields,
`n` separators yielding `n + 1` fields. -/
def splitBytes (sep : Nat) : List Nat → List (List Nat)
  | [] => [[]]
  | b :: rest =>
    match splitBytes sep rest with
    | [] => [[]]
    | h :: t => if b = sep then [] :: h :: t else (b :: h) :: t

/-- Go `strings.HasPrefix`: does the second list start with the first. -/
def startsWithSeq {α : Type} [DecidableEq α] : List α → List α → Bool
  | [], _ => true
  | _ :: _, [] => false
  | p :: ps, b :: bs => if p = b then startsWithSeq ps bs else false

/-- Header-line validation of `extractFilesFromStream`: the line must carry
the `FILE:` marker and split on `:` into exactly three fields; the parsed
path and size are returned (`parseInt64` turns a malformed size field into
0, which the caller treats as a skip). -/
def parseHeaderLine (headerLine : List Nat) : Option (List Nat × Nat) :=
  if startsWithSeq (strBytes "FILE:") headerLine then
    match splitBytes 58 headerLine with
    | [_, filePath, sizeStr] => some (filePath, parseInt64M sizeStr)
    | _ => none
  else none

/-- Loop of `RestoreManager.extractFilesFromStream` with an empty
`filesToRestore` filter, on the decompressed stream: find the next header
line, validate it with `parseHeaderLine`, skip records whose parsed size is
≤ 0 (advancing just past the header, as the code does), stop when a record
would overrun the stream, and otherwise emit `(path, bytes)` and continue
past the record.  The loop is driven by fuel; every step drops at least one
byte, so `data.length + 1` units suffice and the fuel never runs out
(`extractGo_fuel_eq`). -/
def extractGo : Nat → List Nat → List (List Nat × List Nat)
  | 0, _ => []
  | fuel + 1, data =>
    match idxOfByte 10 data with
    | none => []
    | some headerEnd =>
      match parseHeaderLine (data.take headerEnd) with
      | none => extractGo fuel (data.drop (headerEnd + 1))
      | some (filePath, fileSize) =>
        if fileSize = 0 then extractGo fuel (data.drop (headerEnd + 1))
        else if data.length < headerEnd + 1 + fileSize then []
        else
          (filePath, (data.drop (headerEnd + 1)).take fileSize) ::
            extractGo fuel (data.drop (headerEnd + 1 + fileSize))

/-- `RestoreManager.extractFilesFromStream` (restore package) with an empty
file filter: the `(path, content)` records restored, in stream order. -/
def extractFilesFromStream (data : List Nat) : List (List Nat × List Nat) :=
  extractGo (data.length + 1) data

/-- Header line hashed first by `StagingArea.generateFileHash`:
`path:<path>:size:<size>:modtime:<unix-seconds>:`. -/
def fileHashHeader (path : List Nat) (size modtime : Nat) : List Nat :=
  strBytes "path:" ++ path ++ strBytes ":size:" ++ natDecimal size ++
    strBytes ":modtime:" ++ natDecimal modtime ++ strBytes ":"

/-- The byte stream `StagingArea.generateFileHash` feeds to SHA-256, with the
code's branch structure: files over `LargeFileSize` hash a 64 KiB head, a
4 KiB sample at the middle offset and a 64 KiB tail (the two latter guarded
by `size > 128*1024`); files over 10 MiB hash a 32 KiB head and (guarded by
`size > 64*1024`) a 32 KiB tail; smaller files hash everything.  A `Read`
into a `k`-byte buffer at offset `o` is `(content.drop o).take k`; the stat
size is the length of the content. -/
def generateFileHashInput (path : List Nat) (modtime : Nat) (content : List Nat) : List Nat :=
  let size := content.length
  fileHashHeader path size modtime ++
    (if largeFileSize < size then
      content.take hashSampleSize ++
        (if 128 * 1024 < size then ((content.drop (size / 2)).take 4096) else []) ++
          (if 128 * 1024 < size then ((content.drop (size - hashSampleSize)).take hashSampleSize) else [])
    else if 10 * 1024 * 1024 < size then
      content.take (32 * 1024) ++
        (if 64 * 1024 < size then ((content.drop (size - 32 * 1024)).take (32 * 1024)) else [])
    else content)

/-- The fingerprint input as §4.2 of the specification words it: three clean
size brackets with no inner guards.  `specFileHashInput` is written from the
spec sentence; `generateFileHashInput` from the code; claim C6 is their
agreement. -/
def specFileHashInput (path : List Nat) (modtime : Nat) (content : List Nat) : List Nat :=
  let size := content.length
  fileHashHeader path size modtime ++
    (if size ≤ 10 * 1024 * 1024 then content
    else if size ≤ 500 * 1024 * 1024 then
      content.take (32 * 1024) ++ content.drop (size - 32 * 1024)
    else
      content.take (64 * 1024) ++ (content.drop (size / 2)).take 4096 ++
        content.drop (size - 64 * 1024))

/-- ASCII/Unicode lowercasing of a string (`strings.ToLower`; layer names and
blend keys exercised here are ASCII, where `Char.toLower` agrees). -/
def lowerStr (s : String) : String :=
  String.mk (s.toList.map Char.toLower)

/-- Scan loop for `strings.Contains`: try every suffix of `s` for `sub` at
its front. -/
def containsSeq {α : Type} [DecidableEq α] (sub : List α) : List α → Bool
  | [] => sub.isEmpty
  | a :: rest => if startsWithSeq sub (a :: rest) then true else containsSeq sub rest

/-- `strings.Contains(s, sub)`. -/
def containsStr (s sub : String) : Bool :=
  containsSeq sub.toList s.toList

/-- The key table of `scanner.mapBlendMode`. -/
def blendModesTable : List (String × String) :=
  [("norm", "normal"), ("dark", "darken"), ("lite", "lighten"), ("hue ", "hue"),
   ("sat ", "saturation"), ("colr", "color"), ("lum ", "luminosity"),
   ("mul ", "multiply"), ("scrn", "screen"), ("over", "overlay"),
   ("sLit", "soft light"), ("hLit", "hard light"), ("diff", "difference"),
   ("smud", "exclusion")]

/-- `scanner.mapBlendMode`: translate a 4-character PSD blend key to its
readable name, defaulting to `normal`. -/
def mapBlendModeM (blendModeKey : String) : String :=
  match blendModesTable.lookup blendModeKey with
  | some readable => readable
  | none => "normal"

/-- `scanner.determineLayerType`: classify a layer from its lowercased name,
then from the `blendMode` argument compared against the string `"normal"`. -/
def determineLayerTypeM (layerName blendMode : String) : String :=
  let layerNameLower := lowerStr layerName
  if containsStr layerNameLower "text" || containsStr layerNameLower "txt" then "text"
  else if containsStr layerNameLower "adjustment" || containsStr layerNameLower "adj" then
    "adjustment"
  else if layerNameLower = "background" || containsStr layerNameLower "bg" then "background"
  else if blendMode ≠ "normal" then "effect"
  else "normal"

/-- The layer type `scanner.parseIndividualLayer` stores: it calls
`determineLayerType(layerName, blendMode)` where `blendMode` is the raw
4-character blend key read from the file (`string(blendModeKey[:])`), not the
readable `mapBlendMode` translation. -/
def parsedLayerTypeOf (layerName blendModeKey : String) : String :=
  determineLayerTypeM layerName blendModeKey

/-- The blend mode `scanner.parseIndividualLayer` stores in the layer record:
the readable `mapBlendMode` translation of the raw key. -/
def parsedLayerBlendModeOf (blendModeKey : String) : String :=
  mapBlendModeM blendModeKey

/-- One step of a restoration plan (`restore.RestorationStep`). -/
structure RestorationStep where
  stepType : String
  file : String
  version : Nat
deriving Repr, DecidableEq

/-- Loop of `RestoreManager.findOptimizedRestorationPath`: walk backwards from
the target version; a direct artifact (versions LZ4, cache LZ4, optimized
Zstd, legacy ZIP) terminates the walk, a delta found at
`objects/deltas/v<V>_from_v<V-1>.bsdiff` (the `rm.DeltaDir` the code probes)
or `cache/v<V>_from_v<V-1>.psd_smart` prepends a step and decrements the
version, and otherwise the search fails.  `fs` is the set of artifact paths
present on disk, relative to `.dgit/`. -/
def findPathGo (fs : List String) : Nat → List RestorationStep → Except String (List RestorationStep)
  | 0, acc => .ok acc
  | v + 1, acc =>
    if fs.contains ("versions/v" ++ toString (v + 1) ++ ".lz4") then
      .ok ({ stepType := "lz4", file := "versions/v" ++ toString (v + 1) ++ ".lz4",
             version := v + 1 } :: acc)
    else if fs.contains ("cache/v" ++ toString (v + 1) ++ ".lz4") then
      .ok ({ stepType := "lz4", file := "cache/v" ++ toString (v + 1) ++ ".lz4",
             version := v + 1 } :: acc)
    else if fs.contains ("cache/v" ++ toString (v + 1) ++ "_optimized.zstd") then
      .ok ({ stepType := "zstd", file := "cache/v" ++ toString (v + 1) ++ "_optimized.zstd",
             version := v + 1 } :: acc)
    else if fs.contains ("objects/v" ++ toString (v + 1) ++ ".zip") then
      .ok ({ stepType := "zip", file := "objects/v" ++ toString (v + 1) ++ ".zip",
             version := v + 1 } :: acc)
    else if fs.contains ("objects/deltas/v" ++ toString (v + 1) ++ "_from_v" ++ toString v ++ ".bsdiff") then
      findPathGo fs v
        ({ stepType := "bsdiff",
           file := "objects/deltas/v" ++ toString (v + 1) ++ "_from_v" ++ toString v ++ ".bsdiff",
           version := v + 1 } :: acc)
    else if fs.contains ("cache/v" ++ toString (v + 1) ++ "_from_v" ++ toString v ++ ".psd_smart") then
      findPathGo fs v
        ({ stepType := "smart_delta",
           file := "cache/v" ++ toString (v + 1) ++ "_from_v" ++ toString v ++ ".psd_smart",
           version := v + 1 } :: acc)
    else .error ("missing restoration data for version " ++ toString (v + 1))

/-- `RestoreManager.findOptimizedRestorationPath`. -/
def findOptimizedRestorationPathM (fs : List String) (targetVersion : Nat) :
    Except String (List RestorationStep) :=
  match findPathGo fs targetVersion [] with
  | .ok [] => .error ("no restoration path found for version " ++ toString targetVersion)
  | .ok p => .ok p
  | .error e => .error e

/-- The smart-delta artifact written by `createSmartDeltaFile`, structurally:
the JSON manifest fields the restore side consumes, plus the embedded copy of
the new PSD (`payload` stands for the LZ4-compressed copy; the frame
round-trips, so it is carried as the raw bytes).  The layer-analysis manifest
is informational and not replayed on restore. -/
structure SmartDeltaFileM where
  fromVersion : Nat
  toVersion : Nat
  filePath : List Nat
  originalSize : Nat
  payload : List Nat
deriving Repr, DecidableEq

/-- The PSD search loop at the top of `createPSDSmartDelta`: the first staged
file with extension `.psd`. -/
def findPSDStaged : List StagedFile → Option StagedFile
  | [] => none
  | f :: rest => if isPSDPath f.path then some f else findPSDStaged rest

/-- `CommitManager.createSmartDeltaFile`: the artifact stores the manifest
fields and the bytes of the one PSD file — no other staged file contributes
anything. -/
def createSmartDeltaFileM (psdFile : StagedFile) (baseVersion version : Nat) : SmartDeltaFileM :=
  { fromVersion := baseVersion
    toVersion := version
    filePath := psdFile.path
    originalSize := psdFile.size
    payload := psdFile.content }

/-- `CommitManager.createPSDSmartDelta` on the success path (both layer
parses succeed; parse failures fall back to `createBsdiffDelta`): pick the
first staged `.psd`, write the smart-delta artifact, return the artifact and
its `CompressionResult`.  `deltaSize` is the stat size of the written file. -/
def createPSDSmartDeltaM (files : List StagedFile) (version baseVersion deltaSize : Nat) :
    Except String (SmartDeltaFileM × CompressionResult) :=
  match findPSDStaged files with
  | none => .error "no PSD file found"
  | some psdFile =>
    .ok (createSmartDeltaFileM psdFile baseVersion version,
      { strategy := "psd_smart"
        outputFile := "v" ++ toString version ++ "_from_v" ++ toString baseVersion ++ ".psd_smart"
        originalSize := psdFile.size
        compressedSize := deltaSize
        compressionRatio := (deltaSize : ℚ) / (psdFile.size : ℚ)
        baseVersion := baseVersion
        cacheLevel := "cache" })

/-- `RestoreManager.restoreFromSmartDelta` with an empty file filter: after
validating the envelope it decompresses the embedded payload and writes the
single file named by the manifest's `file_path`; the returned result lists
exactly that one restored file. -/
def restoreFromSmartDeltaM (delta : SmartDeltaFileM) : List (List Nat × List Nat) :=
  [(delta.filePath, delta.payload)]

/-- Method selection of `RestoreManager.performFastRestore`: versions
directory first (only for `lz4` commits whose artifact exists), then the
cache directory, then the strategy switch (`psd_smart`/`design_smart_delta`
→ smart delta, `bsdiff`/`xdelta3` → delta chain, `zip` → zip), with
`"none"` when no method applies (legacy `SnapshotZip` absent). -/
def performFastRestoreMethodM (strategy outputFile : String) (version : Nat)
    (fs : List String) : String :=
  if strategy = "lz4" ∧ fs.contains ("versions/" ++ outputFile) then "versions"
  else if fs.contains ("cache/v" ++ toString version ++ ".lz4") ∨
      fs.contains ("cache/v" ++ toString version ++ "_optimized.zstd") then "cache"
  else if strategy = "psd_smart" ∨ strategy = "design_smart_delta" then "smart_delta"
  else if strategy = "bsdiff" ∨ strategy = "xdelta3" then "delta_chain"
  else if strategy = "zip" then "zip"
  else "none"

/-- Delta strategies, per the closed strategy family of the commit package. -/
def isDeltaStrategy (s : String) : Bool :=
  s = "psd_smart" || s = "bsdiff"

/-- Commit histories reachable through `CreateCommit` alone, as the list of
recorded `compression_info.strategy` tags for versions `1, 2, …`.  Each step
runs `createSnapshotM` at version `len + 1` with previous version `len`; the
legacy-ZIP predicate is `fun _ => false` because the pipeline never writes
`objects/v<N>.zip` snapshots, so `getDeltaChainLength` counts all the way
down.  A successful `createDelta` outcome always carries a delta strategy
tag (`psd_smart` from `createPSDSmartDelta`, `bsdiff` from
`createBsdiffDelta` or the parse-failure fallback), which hypothesis `hδ`
records.  A failed snapshot creates no commit record, so only `.ok` outcomes
extend the history. -/
inductive ReachableHistory : List String → Prop
  | nil : ReachableHistory []
  | commit (hist : List String) (files : List StagedFile)
      (deltaAttempt : Except String CompressionResult) (compressedSize : Nat)
      (r : CompressionResult)
      (hδ : ∀ d, deltaAttempt = .ok d → d.strategy = "psd_smart" ∨ d.strategy = "bsdiff")
      (hr : (createSnapshotM files (hist.length + 1) hist.length
          (getDeltaChainLengthM (fun _ => false) hist.length) 5 deltaAttempt
          compressedSize).1 = .ok r)
      (h : ReachableHistory hist) :
      ReachableHistory (hist ++ [r.strategy])

/-- Length of the delta chain from version `v` back to its first non-delta
ancestor, read off a commit history (`hist.get? (v-1)` is version `v`'s
strategy). -/
def deltaChainFrom (hist : List String) : Nat → Nat
  | 0 => 0
  | v + 1 =>
    match hist.get? v with
    | some s => if isDeltaStrategy s then deltaChainFrom hist v + 1 else 0
    | none => 0


/-
  Theorems.  Helper lemmas come first, then one theorem per claim (with its
  witness or counterexample where required).
-/

theorem natDecimalAux_digits : ∀ f n b, b ∈ natDecimalAux f n → 48 ≤ b ∧ b ≤ 57 := by
  intro f
  induction f with
  | zero =>
    intro n b hb
    simp only [natDecimalAux, List.mem_singleton] at hb
    subst hb
    have : n % 10 < 10 := Nat.mod_lt _ (by omega)
    omega
  | succ f ih =>
    intro n b hb
    by_cases h : n < 10
    · simp only [natDecimalAux, if_pos h, List.mem_singleton] at hb
      omega
    · simp only [natDecimalAux, if_neg h, List.mem_append, List.mem_singleton] at hb
      rcases hb with hb | hb
      · exact ih _ _ hb
      · have : n % 10 < 10 := Nat.mod_lt _ (by omega)
        omega

theorem parseIntGo_append (A : List Nat) (h : ∀ b ∈ A, 48 ≤ b ∧ b ≤ 57) :
    ∀ B acc, parseIntGo acc (A ++ B) = parseIntGo (parseIntGo acc A) B := by
  induction A with
  | nil => intro B acc; rfl
  | cons a A ih =>
    intro B acc
    have ha : 48 ≤ a ∧ a ≤ 57 := h a (by simp)
    simp only [List.cons_append, parseIntGo, if_pos ha]
    exact ih (fun b hb => h b (by simp [hb])) B _

theorem parseIntGo_natDecimalAux :
    ∀ f n, n ≤ f → ∀ acc,
      parseIntGo acc (natDecimalAux f n) = acc * 10 ^ (natDecimalAux f n).length + n := by
  intro f
  induction f with
  | zero =>
    intro n hn acc
    have hn0 : n = 0 := by omega
    subst hn0
    simp [natDecimalAux, parseIntGo]
  | succ f ih =>
    intro n hn acc
    by_cases h : n < 10
    · have hb : 48 ≤ 48 + n ∧ 48 + n ≤ 57 := by omega
      simp only [natDecimalAux, if_pos h, parseIntGo, if_pos hb, List.length_singleton]
      have : 48 + n - 48 = n := by omega
      simp [this, pow_one]
    · have hdiv : n / 10 ≤ f := by
        have h1 : n / 10 < n := Nat.div_lt_self (by omega) (by omega)
        omega
      have hdig : ∀ b ∈ natDecimalAux f (n / 10), 48 ≤ b ∧ b ≤ 57 :=
        fun b hb => natDecimalAux_digits f (n / 10) b hb
      have hlast : 48 ≤ 48 + n % 10 ∧ 48 + n % 10 ≤ 57 := by
        have : n % 10 < 10 := Nat.mod_lt _ (by omega)
        omega
      simp only [natDecimalAux, if_neg h]
      rw [parseIntGo_append _ hdig]
      rw [ih (n / 10) hdiv acc]
      simp only [parseIntGo, if_pos hlast, List.length_append, List.length_singleton]
      have hmod : 48 + n % 10 - 48 = n % 10 := by omega
      rw [hmod, pow_succ]
      have := Nat.div_add_mod n 10
      ring_nf
      omega

/-- Parsing the decimal rendering gives back the number (used for the
container round trip: the size header written by the encoder is read back by
the decoder). -/
theorem parseInt64M_natDecimal (n : Nat) : parseInt64M (natDecimal n) = n := by
  have := parseIntGo_natDecimalAux n n le_rfl 0
  simpa [parseInt64M, natDecimal] using this

theorem natDecimal_digits (n : Nat) : ∀ b ∈ natDecimal n, 48 ≤ b ∧ b ≤ 57 :=
  fun b hb => natDecimalAux_digits n n b hb

theorem shouldUseLZ4Loop_eq_true_iff (files : List StagedFile) :
    shouldUseLZ4Loop files = true ↔
      ∀ f ∈ files, f.size ≤ smallFileThreshold ∧ isDesignExtPath f.path = false := by
  induction files with
  | nil => simp [shouldUseLZ4Loop]
  | cons f rest ih =>
    simp only [shouldUseLZ4Loop]
    by_cases h1 : smallFileThreshold < f.size
    · simp only [if_pos h1]
      constructor
      · intro h; exact absurd h (by simp)
      · intro h
        have := (h f (by simp)).1
        omega
    · simp only [if_neg h1]
      by_cases h2 : isDesignExtPath f.path
      · simp only [if_pos h2]
        constructor
        · intro h; exact absurd h (by simp)
        · intro h
          have := (h f (by simp)).2
          simp [h2] at this
      · simp only [if_neg h2, ih, List.mem_cons]
        constructor
        · intro h g hg
          rcases hg with hg | hg
          · subst hg
            exact ⟨by omega, by simpa using h2⟩
          · exact h g hg
        · intro h g hg
          exact h g (Or.inr hg)

theorem shouldUseLZ4_eq_true_iff (files : List StagedFile) (version : Nat) :
    shouldUseLZ4 files version = true ↔
      version = 1 ∨ ∀ f ∈ files, f.size ≤ smallFileThreshold ∧ isDesignExtPath f.path = false := by
  unfold shouldUseLZ4
  by_cases hv : version = 1
  · simp [hv]
  · simp [hv, shouldUseLZ4Loop_eq_true_iff]

theorem selectDeltaAlgorithm_eq (files : List StagedFile) :
    selectDeltaAlgorithm files =
      if files.any (fun f => isPSDPath f.path) then "psd_smart" else "bsdiff" := by
  induction files with
  | nil => simp [selectDeltaAlgorithm]
  | cons f rest ih =>
    simp only [selectDeltaAlgorithm, List.any_cons]
    by_cases h : isPSDPath f.path
    · simp [h]
    · simp [h, ih]

/-- C3: for every staged file list F and new version number V ≥ 1 (with the
delta-chain check not yet at the maximum, so that the chain cap does not
interfere), the strategy selector chooses `lz4` exactly when V = 1 or when no
file in F is larger than 50 MiB and none has a `.psd`/`.ai`/`.sketch`
extension; otherwise it attempts a delta strategy, refined to `psd_smart`
when some file in F is a `.psd` and to `bsdiff` otherwise. -/
theorem strategy_selector_spec (files : List StagedFile) (version prevChainLen : Nat)
    (hv : 1 ≤ version) (hchain : prevChainLen < 5) :
    (attemptedStrategy files version prevChainLen 5 = "lz4" ↔
      version = 1 ∨ ∀ f ∈ files, f.size ≤ smallFileThreshold ∧ isDesignExtPath f.path = false)
    ∧ (attemptedStrategy files version prevChainLen 5 ≠ "lz4" →
        attemptedStrategy files version prevChainLen 5 =
          if files.any (fun f => isPSDPath f.path) then "psd_smart" else "bsdiff") := by
  have hsel : selectDeltaAlgorithm files = "psd_smart" ∨ selectDeltaAlgorithm files = "bsdiff" := by
    rw [selectDeltaAlgorithm_eq]
    by_cases h : files.any (fun f => isPSDPath f.path) <;> simp [h]
  unfold attemptedStrategy
  by_cases hlz : shouldUseLZ4 files version
  · simp only [if_pos hlz]
    constructor
    · simpa using (shouldUseLZ4_eq_true_iff files version).mp hlz
    · intro h; exact absurd rfl h
  · have hv1 : version ≠ 1 := by
      intro h1
      exact hlz (by simp [shouldUseLZ4, h1])
    have hcond : 1 < version ∧ ¬ 5 ≤ prevChainLen := ⟨by omega, by omega⟩
    simp only [if_neg hlz, if_pos hcond]
    constructor
    · constructor
      · intro h
        rcases hsel with hs | hs <;> rw [hs] at h <;> simp at h
      · intro h
        rcases h with h | h
        · exact absurd h hv1
        · exact absurd ((shouldUseLZ4_eq_true_iff files version).mpr (Or.inr h)) hlz
    · intro _
      rw [selectDeltaAlgorithm_eq]

/-- C3 witness: a second-version commit of one small `.psd` attempts the
`psd_smart` delta. -/
theorem strategy_selector_spec_witness :
    attemptedStrategy [⟨strBytes "design.psd", 3, [1, 2, 3], true⟩] 2 1 5 = "psd_smart" := by
  have h := strategy_selector_spec [⟨strBytes "design.psd", 3, [1, 2, 3], true⟩] 2 1
    (by omega) (by omega)
  have hne : attemptedStrategy [⟨strBytes "design.psd", 3, [1, 2, 3], true⟩] 2 1 5 ≠ "lz4" := by
    intro hcontra
    have h1 := (h.1).mp hcontra
    rcases h1 with h1 | h1
    · omega
    · have := (h1 ⟨strBytes "design.psd", 3, [1, 2, 3], true⟩ (by simp)).2
      revert this
      decide
  rw [h.2 hne]
  decide

theorem CreateCommitM_lz4_ok (staged : List StagedFile)
    (currentVersion prevChainLen : Nat) (deltaAttempt : Except String CompressionResult)
    (compressedSize : Nat)
    (hlz4 : shouldUseLZ4 staged (currentVersion + 1) = true)
    (h0 : lz4OriginalSize staged ≠ 0)
    (hratio : (compressedSize : ℚ) / (lz4OriginalSize staged : ℚ) ≤ 6 / 5)
    (hcs : compressedSize ≠ 0) :
    CreateCommitM staged currentVersion prevChainLen 5 deltaAttempt compressedSize =
      .ok { filesCount := staged.length
            version := currentVersion + 1
            metadataKeys := staged.map (·.path)
            compressionInfo :=
              { strategy := "lz4"
                outputFile := "v" ++ toString (currentVersion + 1) ++ ".lz4"
                originalSize := lz4OriginalSize staged
                compressedSize := compressedSize
                compressionRatio := (compressedSize : ℚ) / (lz4OriginalSize staged : ℚ)
                baseVersion := 0
                cacheLevel := "versions" } } := by
  have hne : staged.isEmpty = false := by
    cases staged with
    | nil => simp [lz4OriginalSize] at h0
    | cons f rest => simp
  have hlt : ¬ (12 : ℚ) / 10 < (compressedSize : ℚ) / (lz4OriginalSize staged : ℚ) := by
    intro hc
    have h65 : (12 : ℚ) / 10 = 6 / 5 := by norm_num
    rw [h65] at hc
    exact absurd hratio (not_le.mpr hc)
  simp only [CreateCommitM, hne, Bool.false_eq_true, if_false, createSnapshotM, hlz4, if_true,
    compressWithLZ4M, compressWithLZ4Run, if_neg h0, if_neg hlt, if_neg hcs]

/-- C4: for every LZ4 encode with non-zero original size, a compression ratio
of exactly 1.2 keeps the artifact, yields a `CompressionResult`, and the
commit is accepted (`CreateCommit` returns the commit record), while a ratio
strictly above 1.2 deletes the artifact and signals the
ineffective-compression error, producing no result. -/
theorem lz4_ratio_boundary (files : List StagedFile)
    (version compressedSize prevChainLen : Nat)
    (deltaAttempt : Except String CompressionResult)
    (h0 : lz4OriginalSize files ≠ 0) :
    ((compressedSize : ℚ) / (lz4OriginalSize files : ℚ) = 6 / 5 →
      compressWithLZ4Run files version compressedSize =
        (.ok { strategy := "lz4"
               outputFile := "v" ++ toString version ++ ".lz4"
               originalSize := lz4OriginalSize files
               compressedSize := compressedSize
               compressionRatio := 6 / 5
               baseVersion := 0
               cacheLevel := "versions" }, true)
      ∧ CreateCommitM files 0 prevChainLen 5 deltaAttempt compressedSize =
          .ok { filesCount := files.length
                version := 1
                metadataKeys := files.map (·.path)
                compressionInfo :=
                  { strategy := "lz4"
                    outputFile := "v1.lz4"
                    originalSize := lz4OriginalSize files
                    compressedSize := compressedSize
                    compressionRatio := 6 / 5
                    baseVersion := 0
                    cacheLevel := "versions" } })
    ∧ ((6 : ℚ) / 5 < (compressedSize : ℚ) / (lz4OriginalSize files : ℚ) →
      compressWithLZ4Run files version compressedSize =
        (.error "compression failed: file became larger", false)) := by
  constructor
  · intro heq
    have hcs : compressedSize ≠ 0 := by
      intro hz
      rw [hz] at heq
      norm_num at heq
    have hlt : ¬ (12 : ℚ) / 10 < (compressedSize : ℚ) / (lz4OriginalSize files : ℚ) := by
      rw [heq]
      norm_num
    constructor
    · simp only [compressWithLZ4Run, if_neg h0, if_neg hlt, if_neg hcs]
      rw [heq]
    · have hcommit := CreateCommitM_lz4_ok files 0 prevChainLen deltaAttempt compressedSize
        (by simp [shouldUseLZ4]) h0 heq.le hcs
      rw [heq] at hcommit
      exact hcommit
  · intro hgt
    have hlt : (12 : ℚ) / 10 < (compressedSize : ℚ) / (lz4OriginalSize files : ℚ) := by
      calc (12 : ℚ) / 10 = 6 / 5 := by norm_num
        _ < _ := hgt
    simp [compressWithLZ4Run, if_neg h0, if_pos hlt]

/-- C4 witness: original size 5, compressed size 6 (ratio exactly 1.2) is
accepted with the artifact kept. -/
theorem lz4_ratio_boundary_witness :
    compressWithLZ4Run [⟨strBytes "a.txt", 5, [1, 2, 3, 4, 5], true⟩] 1 6 =
      (.ok { strategy := "lz4"
             outputFile := "v1.lz4"
             originalSize := 5
             compressedSize := 6
             compressionRatio := 6 / 5
             baseVersion := 0
             cacheLevel := "versions" }, true)
    ∧ (CreateCommitM [⟨strBytes "a.txt", 5, [1, 2, 3, 4, 5], true⟩] 0 0 5 (.error "none") 6).isOk = true := by
  have h := lz4_ratio_boundary [⟨strBytes "a.txt", 5, [1, 2, 3, 4, 5], true⟩] 1 6 0
    (.error "none") (by decide)
  have heq : ((6 : Nat) : ℚ) / ((lz4OriginalSize [⟨strBytes "a.txt", 5, [1, 2, 3, 4, 5], true⟩] : Nat) : ℚ) = 6 / 5 := by
    norm_num [lz4OriginalSize]
  obtain ⟨h1, h2⟩ := h.1 heq
  constructor
  · simpa [lz4OriginalSize] using h1
  · rw [h2]
    rfl

/-- C6: the identity fingerprint hashes the header line and then, for sizes
up to 10 MiB inclusive, the whole content; for sizes in (10 MiB, 500 MiB],
the first and last 32 KiB; above 500 MiB, the first 64 KiB, a 4 KiB sample at
the midpoint and the last 64 KiB — the code-shaped byte stream coincides with
the specification's three clean brackets on every input. -/
theorem fingerprint_size_brackets (path : List Nat) (modtime : Nat) (content : List Nat) :
    generateFileHashInput path modtime content = specFileHashInput path modtime content := by
  unfold generateFileHashInput specFileHashInput
  simp only [largeFileSize, hashSampleSize]
  by_cases hL : 500 * 1024 * 1024 < content.length
  · have h10 : ¬ content.length ≤ 10 * 1024 * 1024 := by omega
    have h500 : ¬ content.length ≤ 500 * 1024 * 1024 := by omega
    have h128 : 128 * 1024 < content.length := by omega
    have htail : (content.drop (content.length - 64 * 1024)).take (64 * 1024) =
        content.drop (content.length - 64 * 1024) := by
      apply List.take_of_length_le
      simp only [List.length_drop]
      omega
    simp only [if_pos hL, if_neg h10, if_neg h500, if_pos h128, htail]
  · have hL' : ¬ 500 * 1024 * 1024 < content.length := hL
    by_cases h10 : 10 * 1024 * 1024 < content.length
    · have h10' : ¬ content.length ≤ 10 * 1024 * 1024 := by omega
      have h500 : content.length ≤ 500 * 1024 * 1024 := by omega
      have h64 : 64 * 1024 < content.length := by omega
      have htail : (content.drop (content.length - 32 * 1024)).take (32 * 1024) =
          content.drop (content.length - 32 * 1024) := by
        apply List.take_of_length_le
        simp only [List.length_drop]
        omega
      simp only [if_neg hL', if_pos h10, if_neg h10', if_pos h500, if_pos h64, htail]
    · have hle : content.length ≤ 10 * 1024 * 1024 := by omega
      simp only [if_neg hL', if_neg h10, if_pos hle]

/-- C7 fails on the code: `parseIndividualLayer` hands `determineLayerType`
the raw 4-character blend key (here `norm`), not the readable translation, so
a plain layer whose blend mode is normal is typed `effect` — the `normal`
outcome the claim describes is produced only when the readable name is
passed, which the code never does. -/
theorem layer_type_normal_blend_counterexample :
    parsedLayerBlendModeOf "norm" = "normal"
    ∧ parsedLayerTypeOf "photo" "norm" = "effect"
    ∧ determineLayerTypeM "photo" (mapBlendModeM "norm") = "normal" := by
  refine ⟨rfl, ?_, ?_⟩ <;> decide

theorem compressWithLZ4Run_ok (files : List StagedFile) (version compressedSize : Nat)
    (h0 : lz4OriginalSize files ≠ 0)
    (hr : ¬ (12 : ℚ) / 10 < (compressedSize : ℚ) / (lz4OriginalSize files : ℚ))
    (hc : compressedSize ≠ 0) :
    compressWithLZ4Run files version compressedSize =
      (.ok { strategy := "lz4"
             outputFile := "v" ++ toString version ++ ".lz4"
             originalSize := lz4OriginalSize files
             compressedSize := compressedSize
             compressionRatio := (compressedSize : ℚ) / (lz4OriginalSize files : ℚ)
             baseVersion := 0
             cacheLevel := "versions" }, true) := by
  simp only [compressWithLZ4Run, if_neg h0, if_neg hr, if_neg hc]

theorem createSnapshotM_delta_kept (files : List StagedFile)
    (version prevVersion prevChainLen maxChain compressedSize : Nat) (d : CompressionResult)
    (hlz : shouldUseLZ4 files version = false) (hv : 1 < version)
    (hchain : ¬ maxChain ≤ prevChainLen) (hd : d.compressionRatio ≤ 7 / 10) :
    createSnapshotM files version prevVersion prevChainLen maxChain (.ok d) compressedSize =
      (.ok d, []) := by
  simp only [createSnapshotM, hlz, Bool.false_eq_true, if_false]
  rw [if_pos ⟨hv, hchain⟩]
  show (if d.compressionRatio ≤ 7 / 10 then (Except.ok d, ([] : List String))
    else (compressWithLZ4M files version compressedSize,
      ["objects/deltas/" ++ d.outputFile])) = (Except.ok d, [])
  rw [if_pos hd]

theorem createSnapshotM_delta_inefficient (files : List StagedFile)
    (version prevVersion prevChainLen maxChain compressedSize : Nat) (d : CompressionResult)
    (hlz : shouldUseLZ4 files version = false) (hv : 1 < version)
    (hchain : ¬ maxChain ≤ prevChainLen) (hd : ¬ d.compressionRatio ≤ 7 / 10) :
    createSnapshotM files version prevVersion prevChainLen maxChain (.ok d) compressedSize =
      (compressWithLZ4M files version compressedSize, ["objects/deltas/" ++ d.outputFile]) := by
  simp only [createSnapshotM, hlz, Bool.false_eq_true, if_false]
  rw [if_pos ⟨hv, hchain⟩]
  show (if d.compressionRatio ≤ 7 / 10 then (Except.ok d, ([] : List String))
    else (compressWithLZ4M files version compressedSize,
      ["objects/deltas/" ++ d.outputFile])) =
    (compressWithLZ4M files version compressedSize, ["objects/deltas/" ++ d.outputFile])
  rw [if_neg hd]

/-- C5 fails on the code: a `psd_smart` delta with ratio exactly 0.7 is kept
and recorded (first conjunct), but when the ratio is 0.8 the fallback
re-encodes with LZ4 while `os.Remove` targets
`objects/deltas/v2_from_v1.psd_smart` — the artifact was written to
`cache/v2_from_v1.psd_smart` (`psdSmartDeltaPath`), which is not among the
removed paths, so the delta artifact is not discarded. -/
theorem delta_ratio_cleanup_counterexample :
    (createSnapshotM [⟨strBytes "design.psd", 3, [1, 2, 3], true⟩] 2 1 1 5
        (.ok { strategy := "psd_smart", outputFile := "v2_from_v1.psd_smart",
               originalSize := 3, compressedSize := 2, compressionRatio := 7 / 10,
               baseVersion := 1, cacheLevel := "cache" }) 2 =
      (.ok { strategy := "psd_smart", outputFile := "v2_from_v1.psd_smart",
             originalSize := 3, compressedSize := 2, compressionRatio := 7 / 10,
             baseVersion := 1, cacheLevel := "cache" }, []))
    ∧ (createSnapshotM [⟨strBytes "design.psd", 3, [1, 2, 3], true⟩] 2 1 1 5
        (.ok { strategy := "psd_smart", outputFile := "v2_from_v1.psd_smart",
               originalSize := 3, compressedSize := 2, compressionRatio := 8 / 10,
               baseVersion := 1, cacheLevel := "cache" }) 2 =
      (.ok { strategy := "lz4", outputFile := "v2.lz4", originalSize := 3,
             compressedSize := 2,
             compressionRatio := ((2 : Nat) : ℚ) / ((3 : Nat) : ℚ), baseVersion := 0,
             cacheLevel := "versions" }, ["objects/deltas/v2_from_v1.psd_smart"]))
    ∧ psdSmartDeltaPath 2 1 = "cache/v2_from_v1.psd_smart"
    ∧ "cache/v2_from_v1.psd_smart" ∉ ["objects/deltas/v2_from_v1.psd_smart"] := by
  refine ⟨?_, ?_, by decide, by decide⟩
  · exact createSnapshotM_delta_kept _ _ _ _ _ _ _ (by decide) (by omega) (by omega)
      (by norm_num)
  · rw [createSnapshotM_delta_inefficient _ _ _ _ _ _ _ (by decide) (by omega) (by omega)
      (by norm_num)]
    rw [compressWithLZ4M, compressWithLZ4Run_ok _ _ _ (by decide) (by norm_num [lz4OriginalSize])
      (by decide)]
    rfl

/-- C9 fails on the code: the commit pipeline writes the binary-patch delta
for version 2 over version 1 at `cache/v2_from_v1.bsdiff`
(`bsdiffDeltaPath`), but the restore path finder only probes
`objects/deltas/v2_from_v1.bsdiff`, so on exactly the state the pipeline
creates it reports missing restoration data instead of consuming the delta;
it does consume a delta placed at the `objects/deltas/` location. -/
theorem bsdiff_delta_location_counterexample :
    bsdiffDeltaPath 2 1 = "cache/v2_from_v1.bsdiff"
    ∧ findOptimizedRestorationPathM ["versions/v1.lz4", "cache/v2_from_v1.bsdiff"] 2 =
        .error "missing restoration data for version 2"
    ∧ findOptimizedRestorationPathM ["versions/v1.lz4", "objects/deltas/v2_from_v1.bsdiff"] 2 =
        .ok [{ stepType := "lz4", file := "versions/v1.lz4", version := 1 },
             { stepType := "bsdiff", file := "objects/deltas/v2_from_v1.bsdiff", version := 2 }] := by
  refine ⟨?_, ?_, ?_⟩ <;> decide

/-- C1 fails on the code: committing the staged set
`{design.psd, notes.txt}` at version 2 under the `psd_smart` strategy stores
only the PSD's bytes in the smart-delta artifact; restoring that commit from
a fresh repository (no `versions/v2.lz4` or cache artifact, so the dispatcher
picks the smart-delta method) writes exactly one file, `design.psd` — the
staged set is not recovered and `notes.txt` is lost. -/
theorem psd_smart_restore_counterexample :
    createPSDSmartDeltaM
        [⟨strBytes "design.psd", 3, [1, 2, 3], true⟩, ⟨strBytes "notes.txt", 2, [9, 9], true⟩] 2 1 2 =
      .ok (⟨1, 2, strBytes "design.psd", 3, [1, 2, 3]⟩,
        { strategy := "psd_smart", outputFile := "v2_from_v1.psd_smart", originalSize := 3,
          compressedSize := 2, compressionRatio := ((2 : Nat) : ℚ) / ((3 : Nat) : ℚ),
          baseVersion := 1, cacheLevel := "cache" })
    ∧ performFastRestoreMethodM "psd_smart" "v2_from_v1.psd_smart" 2
        ["versions/v1.lz4", "cache/v2_from_v1.psd_smart"] = "smart_delta"
    ∧ restoreFromSmartDeltaM ⟨1, 2, strBytes "design.psd", 3, [1, 2, 3]⟩ =
        [(strBytes "design.psd", [1, 2, 3])]
    ∧ (restoreFromSmartDeltaM ⟨1, 2, strBytes "design.psd", 3, [1, 2, 3]⟩).map Prod.fst ≠
        [strBytes "design.psd", strBytes "notes.txt"]
    ∧ strBytes "notes.txt" ∉
        (restoreFromSmartDeltaM ⟨1, 2, strBytes "design.psd", 3, [1, 2, 3]⟩).map Prod.fst := by
  refine ⟨rfl, by decide, by decide, by decide, by decide⟩

/-- C10 as stated fails when the unreadable file is the only staged file: the
container then holds no data, `compressWithLZ4` fails with "no data to
compress", and `CreateCommit` reports the snapshot failure instead of
succeeding. -/
theorem unreadable_only_file_counterexample :
    CreateCommitM [⟨strBytes "a.txt", 3, [1, 2, 3], false⟩] 0 0 5 (.error "none") 2 =
      .error "snapshot creation failed: no data to compress" := rfl

theorem idxOfByte_append (t : Nat) (A B : List Nat) (h : t ∉ A) :
    idxOfByte t (A ++ t :: B) = some A.length := by
  induction A with
  | nil => simp [idxOfByte]
  | cons a A ih =>
    have ha : ¬ a = t := fun e => h (by simp [e])
    simp only [List.cons_append, idxOfByte, if_neg ha]
    rw [List.append_eq, ih (fun hm => h (List.mem_cons_of_mem _ hm))]
    rfl

theorem idxOfByte_some_ne_nil (t : Nat) (data : List Nat) (i : Nat)
    (h : idxOfByte t data = some i) : data ≠ [] := by
  intro e
  rw [e] at h
  simp [idxOfByte] at h

theorem splitBytes_ne_nil (sep : Nat) (l : List Nat) : splitBytes sep l ≠ [] := by
  cases l with
  | nil => simp [splitBytes]
  | cons a rest =>
    simp only [splitBytes]
    cases splitBytes sep rest with
    | nil => simp
    | cons h t =>
      by_cases ha : a = sep <;> simp [ha]

theorem splitBytes_no_sep (sep : Nat) (A : List Nat) (h : sep ∉ A) :
    splitBytes sep A = [A] := by
  induction A with
  | nil => rfl
  | cons a A ih =>
    have ha : ¬ a = sep := fun e => h (by simp [e])
    simp only [splitBytes]
    rw [ih (fun hm => h (List.mem_cons_of_mem _ hm))]
    simp [ha]

theorem splitBytes_append (sep : Nat) (A B : List Nat) (h : sep ∉ A) :
    splitBytes sep (A ++ sep :: B) = A :: splitBytes sep B := by
  induction A with
  | nil =>
    simp only [List.nil_append, splitBytes]
    cases hsp : splitBytes sep B with
    | nil => exact absurd hsp (splitBytes_ne_nil sep B)
    | cons hh tt => simp
  | cons a A ih =>
    have ha : ¬ a = sep := fun e => h (by simp [e])
    simp only [List.cons_append, splitBytes]
    rw [List.append_eq, ih (fun hm => h (List.mem_cons_of_mem _ hm))]
    simp [ha]

theorem startsWithSeq_append {α : Type} [DecidableEq α] (P T : List α) :
    startsWithSeq P (P ++ T) = true := by
  induction P with
  | nil => rfl
  | cons p ps ih => simp [startsWithSeq, ih]

theorem natDecimal_no_colon (n : Nat) : (58 : Nat) ∉ natDecimal n := by
  intro hm
  have := natDecimal_digits n 58 hm
  omega

theorem natDecimal_no_lf (n : Nat) : (10 : Nat) ∉ natDecimal n := by
  intro hm
  have := natDecimal_digits n 10 hm
  omega

/-- A well-formed header line parses back to its path and size. -/
theorem parseHeaderLine_header (p : List Nat) (n : Nat) (hp58 : 58 ∉ p) :
    parseHeaderLine (strBytes "FILE:" ++ p ++ [58] ++ natDecimal n) = some (p, n) := by
  have hshape : strBytes "FILE:" ++ p ++ [58] ++ natDecimal n =
      strBytes "FILE" ++ 58 :: (p ++ 58 :: natDecimal n) := by
    simp [strBytes]
  have hsw : startsWithSeq (strBytes "FILE:")
      (strBytes "FILE:" ++ (p ++ [58] ++ natDecimal n)) = true := startsWithSeq_append _ _
  have hsw' : startsWithSeq (strBytes "FILE:")
      (strBytes "FILE:" ++ p ++ [58] ++ natDecimal n) = true := by
    simpa [List.append_assoc] using hsw
  have hsplit : splitBytes 58 (strBytes "FILE:" ++ p ++ [58] ++ natDecimal n) =
      [strBytes "FILE", p, natDecimal n] := by
    rw [hshape]
    rw [splitBytes_append 58 (strBytes "FILE") _ (by decide)]
    rw [splitBytes_append 58 p _ hp58]
    rw [splitBytes_no_sep 58 _ (natDecimal_no_colon n)]
  simp only [parseHeaderLine, hsw', if_true, hsplit, parseInt64M_natDecimal]

/-- Consuming one well-formed record: the decoder emits the record's path and
content and continues exactly after it, spending one unit of fuel. -/
theorem extractGo_record (fuel : Nat) (p c rest : List Nat)
    (hp10 : 10 ∉ p) (hp58 : 58 ∉ p) (hc : c ≠ []) :
    extractGo (fuel + 1) (fileRecord p c ++ rest) = (p, c) :: extractGo fuel rest := by
  have hshape : fileRecord p c ++ rest =
      (strBytes "FILE:" ++ p ++ [58] ++ natDecimal c.length) ++ 10 :: (c ++ rest) := by
    simp [fileRecord, List.append_assoc]
  set A := strBytes "FILE:" ++ p ++ [58] ++ natDecimal c.length with hA
  have h10A : (10 : Nat) ∉ A := by
    rw [hA]
    simp only [List.mem_append, List.mem_singleton]
    rintro (((hm | hm) | hm) | hm)
    · revert hm; decide
    · exact hp10 hm
    · omega
    · exact natDecimal_no_lf c.length hm
  have hidx : idxOfByte 10 (A ++ 10 :: (c ++ rest)) = some A.length :=
    idxOfByte_append 10 A (c ++ rest) h10A
  have htake : (A ++ 10 :: (c ++ rest)).take A.length = A := List.take_left A _
  have hparse : parseHeaderLine A = some (p, c.length) := parseHeaderLine_header p c.length hp58
  have hlen0 : c.length ≠ 0 := fun e => hc (List.eq_nil_of_length_eq_zero e)
  have hnov : ¬ (A ++ 10 :: (c ++ rest)).length < A.length + 1 + c.length := by
    simp [List.length_append]
    omega
  have hdrop1 : (A ++ 10 :: (c ++ rest)).drop (A.length + 1) = c ++ rest := by
    have : A ++ 10 :: (c ++ rest) = (A ++ [10]) ++ (c ++ rest) := by simp
    rw [this, show A.length + 1 = (A ++ [10]).length by simp]
    exact List.drop_left _ _
  have hdrop2 : (A ++ 10 :: (c ++ rest)).drop (A.length + 1 + c.length) = rest := by
    have : A ++ 10 :: (c ++ rest) = ((A ++ [10]) ++ c) ++ rest := by simp
    rw [this, show A.length + 1 + c.length = ((A ++ [10]) ++ c).length by simp; omega]
    exact List.drop_left _ _
  have hcontent : ((A ++ 10 :: (c ++ rest)).drop (A.length + 1)).take c.length = c := by
    rw [hdrop1]
    exact List.take_left c rest
  rw [hshape]
  simp only [extractGo, hidx, htake, hparse, hlen0, if_false, hnov, hcontent, hdrop2]

theorem extractGo_fuel_eq :
    ∀ f₁ : Nat, ∀ (data : List Nat) (f₂ : Nat), data.length < f₁ → data.length < f₂ →
      extractGo f₁ data = extractGo f₂ data := by
  intro f₁
  induction f₁ with
  | zero => intro data f₂ h1 _; omega
  | succ g₁ ih =>
    intro data f₂ h1 h2
    cases f₂ with
    | zero => omega
    | succ g₂ =>
      simp only [extractGo]
      cases hidx : idxOfByte 10 data with
      | none => simp only [hidx]
      | some he =>
        have hne : data ≠ [] := idxOfByte_some_ne_nil 10 data he hidx
        have hpos : 1 ≤ data.length := List.length_pos.mpr hne
        have hb1 : ∀ k, 1 ≤ k → (data.drop k).length < g₁ := by
          intro k hk
          simp only [List.length_drop]
          omega
        have hb2 : ∀ k, 1 ≤ k → (data.drop k).length < g₂ := by
          intro k hk
          simp only [List.length_drop]
          omega
        simp only [hidx]
        cases hph : parseHeaderLine (data.take he) with
        | none =>
          simp only [hph]
          exact ih _ g₂ (hb1 (he + 1) (by omega)) (hb2 (he + 1) (by omega))
        | some pr =>
          obtain ⟨fp, sz⟩ := pr
          simp only [hph]
          by_cases hsz : sz = 0
          · simp only [hsz, if_pos]
            exact ih _ g₂ (hb1 (he + 1) (by omega)) (hb2 (he + 1) (by omega))
          · simp only [if_neg hsz]
            by_cases hov : data.length < he + 1 + sz
            · simp only [if_pos hov]
            · simp only [if_neg hov, List.cons.injEq]
              exact ⟨trivial, ih _ g₂ (hb1 (he + 1 + sz) (by omega)) (hb2 (he + 1 + sz) (by omega))⟩

theorem fileRecord_length_pos (p c : List Nat) : 1 ≤ (fileRecord p c).length := by
  simp [fileRecord, strBytes]

/-- C2, amended: for every staged file set whose files are readable, have
non-empty contents, and whose relative paths contain neither `:` (58) nor LF
(10), decoding the LZ4 container produced by the encoder yields byte-identical
contents and identical relative paths in the encoder's insertion order.  The
restrictions are forced by the counterexample: the decoder drops records whose
parsed size is ≤ 0, and a `:` in a path breaks the three-field header split. -/
theorem lz4_container_roundtrip (files : List StagedFile)
    (h : ∀ f ∈ files, f.readable = true ∧ f.content ≠ [] ∧ 10 ∉ f.path ∧ 58 ∉ f.path) :
    extractFilesFromStream (lz4ContainerBytes files) =
      files.map fun f => (f.path, f.content) := by
  induction files with
  | nil => rfl
  | cons f rest ih =>
    obtain ⟨hr, hc, h10, h58⟩ := h f (by simp)
    have hrest := ih fun g hg => h g (List.mem_cons_of_mem _ hg)
    have hcont : lz4ContainerBytes (f :: rest) =
        fileRecord f.path f.content ++ lz4ContainerBytes rest := by
      simp [lz4ContainerBytes, hr]
    unfold extractFilesFromStream
    rw [hcont, extractGo_record _ _ _ _ h10 h58 hc]
    rw [extractGo_fuel_eq _ _ ((lz4ContainerBytes rest).length + 1) ?_ ?_]
    · rw [← extractFilesFromStream, hrest]
      simp
    · have := fileRecord_length_pos f.path f.content
      simp only [List.length_append]
      omega
    · omega

/-- C2 witness for the amended round trip: two concrete files decode back in
insertion order. -/
theorem lz4_container_roundtrip_witness :
    extractFilesFromStream (lz4ContainerBytes
        [⟨strBytes "a.txt", 3, [1, 2, 3], true⟩, ⟨strBytes "b", 2, [9, 9], true⟩]) =
      [(strBytes "a.txt", [1, 2, 3]), (strBytes "b", [9, 9])] := by
  have h := lz4_container_roundtrip
    [⟨strBytes "a.txt", 3, [1, 2, 3], true⟩, ⟨strBytes "b", 2, [9, 9], true⟩]
    (by intro f hf; fin_cases hf <;> refine ⟨rfl, by decide, by decide, by decide⟩)
  simpa using h

/-- C2 fails as frozen: a zero-byte staged file is encoded (its header
carries size 0) but the decoder's `fileSize <= 0` guard drops the record, so
decode of encode loses the file; a path containing `:` breaks the three-field
header split and the record is likewise lost. -/
theorem lz4_container_roundtrip_counterexample :
    lz4ContainerBytes [⟨strBytes "a", 0, [], true⟩] = strBytes "FILE:a:0" ++ [10]
    ∧ extractFilesFromStream (lz4ContainerBytes [⟨strBytes "a", 0, [], true⟩]) = []
    ∧ extractFilesFromStream (lz4ContainerBytes [⟨strBytes "a", 0, [], true⟩]) ≠
        [(strBytes "a", [])]
    ∧ extractFilesFromStream (lz4ContainerBytes [⟨strBytes "a:b", 2, [7, 8], true⟩]) = [] := by
  refine ⟨by decide, by decide, by decide, by decide⟩

theorem lz4ContainerBytes_filter_readable (files : List StagedFile) :
    lz4ContainerBytes files = lz4ContainerBytes (files.filter (·.readable)) := by
  induction files with
  | nil => rfl
  | cons f rest ih =>
    by_cases h : f.readable
    · simp [lz4ContainerBytes, List.filter_cons, h, ih]
    · simp only [Bool.not_eq_true] at h
      simp [lz4ContainerBytes, List.filter_cons, h, ih]

/-- C10, amended: when some other staged file is readable (so the accumulated
original size is non-zero) and the LZ4 artifact passes the ratio and
non-emptiness checks, the commit succeeds even though a staged file could not
be opened or read: the unreadable file is omitted from the container bytes
(the container equals that of the readable files alone), while the commit
record's `files_count` and metadata keys still cover every staged file. -/
theorem unreadable_files_omitted_commit_succeeds (staged : List StagedFile)
    (currentVersion prevChainLen : Nat) (deltaAttempt : Except String CompressionResult)
    (compressedSize : Nat)
    (hlz4 : shouldUseLZ4 staged (currentVersion + 1) = true)
    (h0 : lz4OriginalSize staged ≠ 0)
    (hratio : (compressedSize : ℚ) / (lz4OriginalSize staged : ℚ) ≤ 6 / 5)
    (hcs : compressedSize ≠ 0) :
    CreateCommitM staged currentVersion prevChainLen 5 deltaAttempt compressedSize =
      .ok { filesCount := staged.length
            version := currentVersion + 1
            metadataKeys := staged.map (·.path)
            compressionInfo :=
              { strategy := "lz4"
                outputFile := "v" ++ toString (currentVersion + 1) ++ ".lz4"
                originalSize := lz4OriginalSize staged
                compressedSize := compressedSize
                compressionRatio := (compressedSize : ℚ) / (lz4OriginalSize staged : ℚ)
                baseVersion := 0
                cacheLevel := "versions" } }
    ∧ lz4ContainerBytes staged = lz4ContainerBytes (staged.filter (·.readable)) :=
  ⟨CreateCommitM_lz4_ok staged currentVersion prevChainLen deltaAttempt compressedSize
      hlz4 h0 hratio hcs,
    lz4ContainerBytes_filter_readable staged⟩

/-- C10 witness: one unreadable and one readable staged file at version 1;
the commit succeeds, counts both files, and the container carries only the
readable one. -/
theorem unreadable_files_omitted_commit_succeeds_witness :
    CreateCommitM
        [⟨strBytes "bad.txt", 1, [7], false⟩, ⟨strBytes "ok.txt", 2, [1, 2], true⟩] 0 0 5
        (.error "none") 2 =
      .ok { filesCount := 2
            version := 1
            metadataKeys := [strBytes "bad.txt", strBytes "ok.txt"]
            compressionInfo :=
              { strategy := "lz4", outputFile := "v1.lz4", originalSize := 2,
                compressedSize := 2, compressionRatio := ((2 : Nat) : ℚ) / ((2 : Nat) : ℚ),
                baseVersion := 0, cacheLevel := "versions" } } := by
  exact (unreadable_files_omitted_commit_succeeds
    [⟨strBytes "bad.txt", 1, [7], false⟩, ⟨strBytes "ok.txt", 2, [1, 2], true⟩] 0 0
    (.error "none") 2 (by decide) (by decide) (by norm_num [lz4OriginalSize]) (by decide)).1

theorem getDeltaChainLengthM_no_zips (n : Nat) :
    getDeltaChainLengthM (fun _ => false) n = n := by
  induction n with
  | zero => rfl
  | succ v ih => simp [getDeltaChainLengthM, ih]

theorem compressWithLZ4M_ok_strategy (files : List StagedFile) (version compressedSize : Nat)
    (r : CompressionResult) (h : compressWithLZ4M files version compressedSize = .ok r) :
    r.strategy = "lz4" := by
  simp only [compressWithLZ4M, compressWithLZ4Run] at h
  split_ifs at h with h0 hr hc <;> simp at h
  rw [← h]

theorem createSnapshotM_ok_delta_conditions (files : List StagedFile)
    (version prevVersion prevChainLen maxChain compressedSize : Nat)
    (deltaAttempt : Except String CompressionResult) (r : CompressionResult)
    (hr : (createSnapshotM files version prevVersion prevChainLen maxChain deltaAttempt
        compressedSize).1 = .ok r)
    (hd : isDeltaStrategy r.strategy = true) :
    1 < version ∧ prevChainLen < maxChain := by
  unfold createSnapshotM at hr
  by_cases hlz : shouldUseLZ4 files version = true
  · rw [if_pos hlz] at hr
    rw [compressWithLZ4M_ok_strategy _ _ _ _ hr] at hd
    simp [isDeltaStrategy] at hd
  · rw [if_neg hlz] at hr
    by_cases hcond : 1 < version ∧ ¬ maxChain ≤ prevChainLen
    · exact ⟨hcond.1, by omega⟩
    · rw [if_neg hcond] at hr
      rw [compressWithLZ4M_ok_strategy _ _ _ _ hr] at hd
      simp [isDeltaStrategy] at hd

/-- In every pipeline-reachable history, a delta strategy can only sit at
versions 2 through 5: the chain check on the previous version (which, with no
legacy ZIPs, counts all the way down) must still be under the maximum. -/
theorem reach_delta_version_bounds (hist : List String) (h : ReachableHistory hist) :
    ∀ v s, hist.get? v = some s → isDeltaStrategy s = true → 1 ≤ v ∧ v + 1 ≤ 5 := by
  induction h with
  | nil => intro v s hv _; simp at hv
  | commit hist files deltaAttempt compressedSize r hδ hr hprev ih =>
    intro v s hv hd
    by_cases hlt : v < hist.length
    · rw [List.get?_append hlt] at hv
      exact ih v s hv hd
    · have hlt2 : v < hist.length + 1 := by
        by_contra hc
        have hnone : (hist ++ [r.strategy]).get? v = none := by
          apply List.get?_eq_none.mpr
          simp only [List.length_append, List.length_singleton]
          omega
        rw [hnone] at hv
        cases hv
      have hvlen : v = hist.length := by omega
      subst hvlen
      rw [List.get?_concat_length] at hv
      have hs : s = r.strategy := by
        injection hv with hv2
        exact hv2.symm
      subst hs
      have hcond := createSnapshotM_ok_delta_conditions files (hist.length + 1) hist.length
        (getDeltaChainLengthM (fun _ => false) hist.length) 5 compressedSize deltaAttempt r
        hr hd
      rw [getDeltaChainLengthM_no_zips] at hcond
      omega

theorem deltaChainFrom_le (hist : List String) : ∀ v, deltaChainFrom hist v ≤ v := by
  intro v
  induction v with
  | zero => simp [deltaChainFrom]
  | succ w ih =>
    simp only [deltaChainFrom]
    cases hg : hist.get? w with
    | none => simp
    | some s =>
      by_cases hd : isDeltaStrategy s
      · simp only [if_pos hd]
        omega
      · simp [hd]

/-- C8: in every repository state reachable through the commit pipeline
alone, the delta chain from any version back to a non-delta artifact never
exceeds the configured `MaxDeltaChainLength` of 5: a delta is only attempted
when the chain-length check on the previous version has not reached the
maximum, and LZ4 is forced otherwise. -/
theorem delta_chain_length_bounded (hist : List String) (h : ReachableHistory hist) :
    ∀ v, deltaChainFrom hist v ≤ 5 := by
  intro v
  by_cases hv : v ≤ 5
  · exact le_trans (deltaChainFrom_le hist v) hv
  · cases v with
    | zero => omega
    | succ w =>
      simp only [deltaChainFrom]
      cases hg : hist.get? w with
      | none => simp
      | some s =>
        by_cases hd : isDeltaStrategy s
        · have := reach_delta_version_bounds hist h w s hg hd
          omega
        · simp [hd]

/-- C8 witness: the one-commit history `["lz4"]` is reachable (a first commit
of one readable file), and its delta chain from version 1 is within bound. -/
theorem delta_chain_length_bounded_witness :
    ReachableHistory ["lz4"] ∧ deltaChainFrom ["lz4"] 1 ≤ 5 := by
  have hr : (createSnapshotM [⟨strBytes "a.txt", 1, [7], true⟩] (List.length ([] : List String) + 1)
      (List.length ([] : List String))
      (getDeltaChainLengthM (fun _ => false) (List.length ([] : List String))) 5
      (.error "none") 1).1 =
      .ok { strategy := "lz4", outputFile := "v1.lz4", originalSize := 1, compressedSize := 1,
            compressionRatio := ((1 : Nat) : ℚ) / ((1 : Nat) : ℚ), baseVersion := 0,
            cacheLevel := "versions" } := by
    have hlz : shouldUseLZ4 [⟨strBytes "a.txt", 1, [7], true⟩] 1 = true := by decide
    simp only [List.length_nil, createSnapshotM, hlz, if_true, compressWithLZ4M]
    rw [compressWithLZ4Run_ok _ _ _ (by decide) (by norm_num [lz4OriginalSize]) (by decide)]
    rfl
  have hreach : ReachableHistory ["lz4"] :=
    ReachableHistory.commit [] [⟨strBytes "a.txt", 1, [7], true⟩] (.error "none") 1
      { strategy := "lz4", outputFile := "v1.lz4", originalSize := 1, compressedSize := 1,
        compressionRatio := ((1 : Nat) : ℚ) / ((1 : Nat) : ℚ), baseVersion := 0,
        cacheLevel := "versions" }
      (fun d hd => nomatch hd) hr ReachableHistory.nil
  exact ⟨hreach, delta_chain_length_bounded ["lz4"] hreach 1⟩

end DGit
